import Mathlib

/-!
Shallow embedding of the TrendTracker dashboard analytics core
(`dashboard/dashboard.py`, `dashboard/dashboard_1.py`).

The source operates on a flat pandas table of order lines.  Here a table is a
`List Row`; timestamps are modelled at calendar-day granularity (`Nat` day
index), since every aggregation in the source buckets by day or by month and
no claim depends on the time of day.  Calendar months are modelled by a
month-index function `M : Nat → Nat` (the counterpart of pandas
`to_period('M').astype(int)`), which any real calendar instantiates
monotonically.  Monetary amounts are `ℚ`.

Grouping (`df.groupby(k).agg(...)`) is modelled as: distinct keys via
`List.dedup` of the mapped key column, and per-key aggregation over
`List.filter` fibers.  `nunique` is `(·.dedup).length`, `sum` is `List.sum`,
`mean` is sum divided by length.
-/

/-- One row of the source table (one order line). -/
structure Row where
  order_id : Nat
  customer_id : Nat
  product_name : String
  quantity : Nat
  total_price : ℚ
  order_date : Nat
  delivery_date : Option Nat
  gender : String
  age_group : String
  state : String
deriving DecidableEq

/-- A pandas DataFrame as seen by the transforms: its rows plus whether the
`quantity_x` column is present (the only column any transform conditionally
adds).  When `hasQuantityX = false` the per-row `quantity` values are
meaningless placeholders for the absent column. -/
structure DF where
  hasQuantityX : Bool
  rows : List Row
deriving DecidableEq

/-- One row of the daily series produced by `create_daily_orders_df`. -/
structure DailyRow where
  order_date : Nat
  order_count : Nat
  revenue : ℚ
deriving DecidableEq

/-- One row of the RFM base table produced by `create_rfm_df`. -/
structure RFMRow where
  customer_id : Nat
  frequency : Nat
  monetary : ℚ
  recency : Nat
deriving DecidableEq


/-! ## Grouping helpers (pandas `groupby` fibers) -/

/-- Distinct `order_id`s of a record set: the keys of `df.groupby("order_id")`. -/
def orderIds (rows : List Row) : List Nat := (rows.map (·.order_id)).dedup

/-- The lines of one order. -/
def orderLines (rows : List Row) (oid : Nat) : List Row :=
  rows.filter (fun r => r.order_id = oid)

/-- An order's total: the `groupby("order_id").total_price.sum()` cell. -/
def orderTotal (rows : List Row) (oid : Nat) : ℚ :=
  ((orderLines rows oid).map (·.total_price)).sum

/-- Distinct `customer_id`s of a record set. -/
def customerIds (rows : List Row) : List Nat := (rows.map (·.customer_id)).dedup

/-- The lines of one customer. -/
def custRows (rows : List Row) (c : Nat) : List Row :=
  rows.filter (fun r => r.customer_id = c)

/-- A customer's number of distinct orders: `groupby("customer_id").order_id.nunique()`. -/
def custNumOrders (rows : List Row) (c : Nat) : Nat :=
  ((custRows rows c).map (·.order_id)).dedup.length

/-- A customer's summed `total_price`: `groupby("customer_id").total_price.sum()`. -/
def custRevenue (rows : List Row) (c : Nat) : ℚ :=
  ((custRows rows c).map (·.total_price)).sum

/-! ## KPI functions (dashboard.py lines 30-44) -/

/-- `compute_aov` (dashboard.py:30-34): 0 on an empty table, else the mean of
the per-order sums of `total_price` (`groupby("order_id").agg(sum)` then
`.mean()`), with the source's second emptiness guard on the grouped frame. -/
def compute_aov (rows : List Row) : ℚ :=
  if rows.isEmpty then 0
  else if (orderIds rows).isEmpty then 0
  else ((orderIds rows).map (orderTotal rows)).sum / ((orderIds rows).length : ℚ)

/-- `compute_repeat_purchase_rate` (dashboard.py:38-44): fraction of distinct
customers whose `order_id.nunique()` exceeds 1, guarded against an empty
table and a zero customer count. -/
def compute_repeat_purchase_rate (rows : List Row) : ℚ :=
  if rows.isEmpty then 0
  else
    let total := (customerIds rows).length
    let rep := ((customerIds rows).filter (fun c => 1 < custNumOrders rows c)).length
    if 0 < total then (rep : ℚ) / (total : ℚ) else 0

/-! ## Daily series (dashboard.py lines 56-68, dashboard_1.py lines 13-24)

`df.resample(rule='D', on='order_date')` buckets by calendar day and emits one
bin for EVERY day between the earliest and latest date present, including
days with no rows (which aggregate to `nunique = 0`, `sum = 0`). -/

/-- `create_daily_orders_df` (dashboard.py:56-68). -/
def create_daily_orders_df (rows : List Row) : List DailyRow :=
  if rows.isEmpty then []
  else
    let ds := rows.map (·.order_date)
    let dmin := ds.min?.getD 0
    let dmax := ds.max?.getD 0
    (List.range' dmin (dmax + 1 - dmin)).map (fun d =>
      { order_date := d
        order_count := (((rows.filter (fun r => r.order_date = d)).map (·.order_id)).dedup).length
        revenue := ((rows.filter (fun r => r.order_date = d)).map (·.total_price)).sum })

/-! ## Product ranking (dashboard.py lines 70-74) -/

/-- Descending stable insertion by summed quantity (pandas
`sort_values(ascending=False)` is a stable sort). -/
def insertByQuantityDesc (x : String × Nat) : List (String × Nat) → List (String × Nat)
  | [] => [x]
  | y :: ys => if y.2 ≤ x.2 then x :: y :: ys else y :: insertByQuantityDesc x ys

/-- Stable sort of (product, quantity) pairs, descending by quantity. -/
def sortByQuantityDesc (l : List (String × Nat)) : List (String × Nat) :=
  l.foldr insertByQuantityDesc []

/-- The grouped product ranking: `groupby('product_name').quantity_x.sum()`
sorted descending. -/
def sum_order_items (rows : List Row) : List (String × Nat) :=
  sortByQuantityDesc (((rows.map (·.product_name)).dedup).map (fun p =>
    (p, ((rows.filter (fun r => r.product_name = p)).map (·.quantity)).sum)))

/-- `create_sum_order_items_df` (dashboard.py:70-74).  The source first runs
`if 'quantity_x' not in df.columns: df['quantity_x'] = 0`, which writes a new
column onto the INPUT frame; the first component of the result is the state
of the input table after the call. -/
def create_sum_order_items_df (df : DF) : DF × List (String × Nat) :=
  let df1 := if df.hasQuantityX then df
             else { hasQuantityX := true, rows := df.rows.map (fun r => { r with quantity := 0 }) }
  (df1, sum_order_items df1.rows)

/-! ## Demographic breakdowns (dashboard.py lines 76-95) -/

/-- `create_bygender_df` (dashboard.py:76-81): distinct-customer count per gender. -/
def create_bygender_df (rows : List Row) : List (String × Nat) :=
  ((rows.map (·.gender)).dedup).map (fun g =>
    (g, (((rows.filter (fun r => r.gender = g)).map (·.customer_id)).dedup).length))

/-- `create_byage_df` (dashboard.py:83-88). -/
def create_byage_df (rows : List Row) : List (String × Nat) :=
  ((rows.map (·.age_group)).dedup).map (fun g =>
    (g, (((rows.filter (fun r => r.age_group = g)).map (·.customer_id)).dedup).length))

/-- `create_bystate_df` (dashboard.py:90-95). -/
def create_bystate_df (rows : List Row) : List (String × Nat) :=
  ((rows.map (·.state)).dedup).map (fun g =>
    (g, (((rows.filter (fun r => r.state = g)).map (·.customer_id)).dedup).length))

/-! ## RFM base table (dashboard.py lines 97-110) -/

/-- A customer's most recent order date. -/
def custMaxDate (rows : List Row) (c : Nat) : Nat :=
  ((custRows rows c).map (·.order_date)).max?.getD 0

/-- The most recent order date of the whole record set (`recent_date`). -/
def recentDate (rows : List Row) : Nat := (rows.map (·.order_date)).max?.getD 0

/-- `create_rfm_df` (dashboard.py:97-110): per customer, distinct-order count,
summed revenue, and days between the set-wide most recent date and the
customer's own most recent date. -/
def create_rfm_df (rows : List Row) : List RFMRow :=
  (customerIds rows).map (fun c =>
    { customer_id := c
      frequency := custNumOrders rows c
      monetary := custRevenue rows c
      recency := recentDate rows - custMaxDate rows c })

/-! ## Minimum-order-total filter (dashboard.py lines 196-200) -/

/-- `order_totals` (dashboard.py:198): per-order totals of the already
date/category/product-filtered set. -/
def order_totals (rows : List Row) : List (Nat × ℚ) :=
  (orderIds rows).map (fun oid => (oid, orderTotal rows oid))

/-- `qualifying_orders` (dashboard.py:199): order ids whose total reaches the
threshold. -/
def qualifying_orders (threshold : ℚ) (rows : List Row) : List Nat :=
  ((order_totals rows).filter (fun p => threshold ≤ p.2)).map (·.1)

/-- The minimum-order-total step (dashboard.py:196-200): active only for a
positive threshold on a non-empty table; keeps the lines whose `order_id`
is in `qualifying_orders`. -/
def applyMinOrderTotal (threshold : ℚ) (rows : List Row) : List Row :=
  if 0 < threshold ∧ rows.isEmpty = false then
    rows.filter (fun r => r.order_id ∈ qualifying_orders threshold rows)
  else rows

/-! ## Delivery time distribution (dashboard.py lines 410-418) -/

/-- `(main_df['delivery_date'] - main_df['order_date']).dt.days.dropna()`
(dashboard.py:411): day differences for rows with a non-null
`delivery_date`; a null difference is dropped, nothing else is. -/
def deliveryTimes (rows : List Row) : List Int :=
  rows.filterMap (fun r =>
    r.delivery_date.map (fun d : Nat => (d : Int) - (r.order_date : Int)))

/-- Modelled from the spec's words for the delivery-time distribution
("discard negative or null results"): the same differences with the negative
ones also removed.  For comparison with the source's `deliveryTimes`. -/
def deliveryTimesSpecNonneg (rows : List Row) : List Int :=
  (deliveryTimes rows).filter (fun v => 0 ≤ v)

/-! ## Cohort engine (dashboard.py lines 300-347)

`M : Nat → Nat` is the calendar's month-index function, the counterpart of
`to_period('M').astype(int)` on a day; any real calendar's month index is a
monotone function of the day. -/

/-- A customer's first order date (`first_order`, dashboard.py:308). -/
def custMinDate (rows : List Row) (c : Nat) : Nat :=
  ((custRows rows c).map (·.order_date)).min?.getD 0

/-- `cohort_month` (dashboard.py:309): month of the customer's first order. -/
def cohortMonth (rows : List Row) (M : Nat → Nat) (c : Nat) : Nat :=
  M (custMinDate rows c)

/-- `order_month` (dashboard.py:304): month of the line's own date. -/
def orderMonth (M : Nat → Nat) (r : Row) : Nat := M r.order_date

/-- `period_number` (dashboard.py:318-320): month index of the line minus
month index of its customer's cohort month. -/
def periodNumber (rows : List Row) (M : Nat → Nat) (r : Row) : Int :=
  (orderMonth M r : Int) - (cohortMonth rows M r.customer_id : Int)

/-- `cohort_counts` cell (dashboard.py:324): distinct customers at one
(cohort month, period number) pair. -/
def cohortCount (rows : List Row) (M : Nat → Nat) (m : Nat) (p : Int) : Nat :=
  (((rows.filter (fun r =>
      cohortMonth rows M r.customer_id = m ∧ periodNumber rows M r = p)).map
        (·.customer_id)).dedup).length

/-- The smallest period number present: the pivot's first column
(`cohort_pivot.iloc[:,0]`, dashboard.py:334). -/
def minPeriod (rows : List Row) (M : Nat → Nat) : Int :=
  (rows.map (periodNumber rows M)).min?.getD 0

/-- `retention` cell (dashboard.py:347): count divided by the cohort's size
in the pivot's first column; an absent cell is 0 (`fillna(0)`). -/
def retention (rows : List Row) (M : Nat → Nat) (m : Nat) (p : Int) : ℚ :=
  if cohortCount rows M m p = 0 then 0
  else (cohortCount rows M m p : ℚ) / (cohortCount rows M m (minPeriod rows M) : ℚ)

/-! ## RFM quintile scoring (dashboard.py lines 428-448)

`pd.qcut(values, 5, labels=False, duplicates='drop')` is modelled after the
pandas implementation: quantile bin edges with linear interpolation at the
positions `q * (n - 1)` for `q = 0, .2, .4, .6, .8, 1`; duplicate edges are
dropped; each value is placed by `searchsorted(bins, x, side='left')` (the
number of edges strictly below `x`), with `include_lowest` forcing the value
equal to the lowest edge into the first bin; an index falling outside
`1 .. len(bins) - 1` yields a missing code (`NaN`), not an error. -/

/-- Insertion into an ascending-sorted list of rationals. -/
def insertSortedQ (x : ℚ) : List ℚ → List ℚ
  | [] => [x]
  | y :: ys => if x ≤ y then x :: y :: ys else y :: insertSortedQ x ys

/-- Ascending sort of rationals. -/
def sortQ (xs : List ℚ) : List ℚ := xs.foldr insertSortedQ []

/-- Linear-interpolation quantile of an ascending-sorted sample at fraction
`q` (numpy / pandas `interpolation='linear'`). -/
def quantileAt (s : List ℚ) (q : ℚ) : ℚ :=
  let pos : ℚ := q * ((s.length : ℚ) - 1)
  let i : Nat := pos.floor.toNat
  let a := s.getD i 0
  let b := s.getD (i + 1) a
  a + (pos - (i : ℚ)) * (b - a)

/-- The 6 quintile bin edges of a sample. -/
def quintileEdges (xs : List ℚ) : List ℚ :=
  [0, 1/5, 2/5, 3/5, 4/5, 1].map (fun q => quantileAt (sortQ xs) q)

/-- `pd.qcut(xs, 5, labels=False, duplicates='drop')`: per value, the bin
code 0..4, or `none` for a missing (NaN) code. -/
def qcut5Drop (xs : List ℚ) : List (Option Nat) :=
  let bins := (quintileEdges xs).dedup
  xs.map (fun x =>
    let ids0 := (bins.filter (fun b => b < x)).length
    let ids := if bins.getD 0 x = x then 1 else ids0
    if ids = 0 ∨ ids = bins.length then none else some (ids - 1))

/-- `rank(method='first')`: ascending ranks 1..n with ties broken by
original position. -/
def rankFirst (xs : List ℚ) : List ℚ :=
  (List.range xs.length).map (fun i =>
    (1 : ℚ) + (((List.range xs.length).filter (fun j =>
      xs.getD j 0 < xs.getD i 0 ∨ (xs.getD j 0 = xs.getD i 0 ∧ j < i))).length : ℚ))

/-- `r_quintile` (dashboard.py:433-434): recency quintile codes inverted to
`5 - code`; a missing code stays missing. -/
def r_quintile (rfm : List RFMRow) : List (Option Int) :=
  (qcut5Drop (rfm.map (fun x => (x.recency : ℚ)))).map
    (Option.map (fun c : Nat => (5 : Int) - (c : Int)))

/-- `f_quintile` (dashboard.py:441): quintile codes of the first-ranked
frequencies, plus 1. -/
def f_quintile (rfm : List RFMRow) : List (Option Nat) :=
  (qcut5Drop (rankFirst (rfm.map (fun x => (x.frequency : ℚ))))).map (Option.map (· + 1))

/-- `m_quintile` (dashboard.py:442): monetary quintile codes plus 1. -/
def m_quintile (rfm : List RFMRow) : List (Option Nat) :=
  (qcut5Drop (rfm.map (·.monetary))).map (Option.map (· + 1))

/-! ## Segment revenue rollup (dashboard.py lines 466-471)

`rfm_score` is the per-customer segment assignment: one `(customer_id,
rfm_score)` pair per customer of the filtered set.  `cust_rev` joins each
customer's total revenue; `seg_rev` groups the merged frame by segment code
and sums. -/

/-- The distinct segment codes: keys of `merged.groupby('rfm_score')`. -/
def segCodes (scores : List (Nat × String)) : List String :=
  (scores.map Prod.snd).dedup

/-- `seg_rev` cell (dashboard.py:467-471): summed customer revenue of the
customers carrying one segment code. -/
def seg_rev (rows : List Row) (scores : List (Nat × String)) (code : String) : ℚ :=
  ((scores.filter (fun s => s.2 = code)).map (fun s => custRevenue rows s.1)).sum

/-! ## State-passing views of the transforms (for the read-only-input claim)

Each transform of the source receives the filtered frame and returns a new
derived frame; the pair's first component is the state of the INPUT table
after the call.  Only `create_sum_order_items_df` (above) conditionally
writes to its input; every other transform only reads `df.rows`. -/

/-- `create_daily_orders_df` as a state-passing transform on the input frame. -/
def run_create_daily_orders_df (df : DF) : DF × List DailyRow :=
  (df, create_daily_orders_df df.rows)

/-- `create_bygender_df` as a state-passing transform on the input frame. -/
def run_create_bygender_df (df : DF) : DF × List (String × Nat) :=
  (df, create_bygender_df df.rows)

/-- `create_byage_df` as a state-passing transform on the input frame. -/
def run_create_byage_df (df : DF) : DF × List (String × Nat) :=
  (df, create_byage_df df.rows)

/-- `create_bystate_df` as a state-passing transform on the input frame. -/
def run_create_bystate_df (df : DF) : DF × List (String × Nat) :=
  (df, create_bystate_df df.rows)

/-- `create_rfm_df` as a state-passing transform on the input frame. -/
def run_create_rfm_df (df : DF) : DF × List RFMRow :=
  (df, create_rfm_df df.rows)

/-! ## Concrete fixtures for witnesses and counterexamples -/

/-- A single order line: order 1 of customer 1, one line of 100. -/
def exRow1 : Row :=
  { order_id := 1, customer_id := 1, product_name := "tee", quantity := 2
    total_price := 100, order_date := 10, delivery_date := some 12
    gender := "F", age_group := "Adults", state := "NSW" }

/-- The same order split into two lines of 60 and 40. -/
def exRow1a : Row := { exRow1 with total_price := 60 }

/-- Second line of the split order. -/
def exRow1b : Row := { exRow1 with total_price := 40 }

/-- A line whose delivery date precedes its order date by 3 days. -/
def exRowNegDelivery : Row := { exRow1 with order_date := 5, delivery_date := some 2 }

/-- An RFM base table of five customers with identical recency (and identical
frequency and monetary): too little variation for 5 quintile buckets. -/
def exConstRFM : List RFMRow :=
  [⟨1, 1, 1, 7⟩, ⟨2, 1, 1, 7⟩, ⟨3, 1, 1, 7⟩, ⟨4, 1, 1, 7⟩, ⟨5, 1, 1, 7⟩]

section ListLemmas

variable {α : Type _} {β : Type _}

theorem foldl_min_le_init [LinearOrder α] (l : List α) (a : α) :
    l.foldl min a ≤ a := by
  induction l generalizing a with
  | nil => simp
  | cons b l ih => exact le_trans (ih (min a b)) (min_le_left a b)

theorem foldl_min_le_mem [LinearOrder α] (l : List α) (a x : α) (hx : x ∈ l) :
    l.foldl min a ≤ x := by
  induction l generalizing a with
  | nil => cases hx
  | cons b l ih =>
    rcases List.mem_cons.mp hx with h | h
    · subst h
      exact le_trans (foldl_min_le_init l (min a x)) (min_le_right a x)
    · exact ih (min a b) h

theorem foldl_min_mem [LinearOrder α] (l : List α) (a : α) :
    l.foldl min a = a ∨ l.foldl min a ∈ l := by
  induction l generalizing a with
  | nil => exact Or.inl rfl
  | cons b l ih =>
    rcases ih (min a b) with h | h
    · rcases min_choice a b with hm | hm
      · exact Or.inl (by rw [List.foldl_cons, h, hm])
      · exact Or.inr (by rw [List.foldl_cons, h, hm]; exact List.mem_cons_self b l)
    · exact Or.inr (List.mem_cons_of_mem b h)

theorem foldl_max_le_init [LinearOrder α] (l : List α) (a : α) :
    a ≤ l.foldl max a := by
  induction l generalizing a with
  | nil => simp
  | cons b l ih => exact le_trans (le_max_left a b) (ih (max a b))

theorem foldl_max_le_mem [LinearOrder α] (l : List α) (a x : α) (hx : x ∈ l) :
    x ≤ l.foldl max a := by
  induction l generalizing a with
  | nil => cases hx
  | cons b l ih =>
    rcases List.mem_cons.mp hx with h | h
    · subst h
      exact le_trans (le_max_right a x) (foldl_max_le_init l (max a x))
    · exact ih (max a b) h

theorem min?_getD_le [LinearOrder α] (l : List α) (d x : α) (hx : x ∈ l) :
    l.min?.getD d ≤ x := by
  cases l with
  | nil => cases hx
  | cons a l =>
    rcases List.mem_cons.mp hx with h | h
    · subst h; exact foldl_min_le_init l x
    · exact foldl_min_le_mem l a x h

theorem min?_getD_mem [LinearOrder α] (l : List α) (d : α) (h : l ≠ []) :
    l.min?.getD d ∈ l := by
  cases l with
  | nil => exact absurd rfl h
  | cons a l =>
    have hd : (a :: l).min?.getD d = l.foldl min a := rfl
    rw [hd]
    rcases foldl_min_mem l a with h' | h'
    · rw [h']; exact List.mem_cons_self a l
    · exact List.mem_cons_of_mem a h'

theorem max?_getD_le [LinearOrder α] (l : List α) (d x : α) (hx : x ∈ l) :
    x ≤ l.max?.getD d := by
  cases l with
  | nil => cases hx
  | cons a l =>
    rcases List.mem_cons.mp hx with h | h
    · subst h; exact foldl_max_le_init l x
    · exact foldl_max_le_mem l a x h

theorem dedup_ne_nil_of_mem [DecidableEq α] {l : List α} {x : α} (hx : x ∈ l) :
    l.dedup ≠ [] :=
  List.ne_nil_of_mem (List.mem_dedup.mpr hx)

theorem sum_map_add (l : List α) (f g : α → ℚ) :
    (l.map (fun a => f a + g a)).sum = (l.map f).sum + (l.map g).sum := by
  induction l with
  | nil => simp
  | cons a l ih => simp [ih]; ring

theorem sum_ite_of_not_mem [DecidableEq β] (L : List β) (b : β) (x : ℚ)
    (hb : b ∉ L) : (L.map (fun v => if b = v then x else 0)).sum = 0 := by
  induction L with
  | nil => simp
  | cons c L ih =>
    have hbc : b ≠ c := fun h => hb (h ▸ List.mem_cons_self c L)
    have hbL : b ∉ L := fun h => hb (List.mem_cons_of_mem c h)
    simp [hbc, ih hbL]

theorem sum_ite_single [DecidableEq β] (L : List β) (hnd : L.Nodup) (b : β)
    (hb : b ∈ L) (x : ℚ) :
    (L.map (fun v => if b = v then x else 0)).sum = x := by
  induction L with
  | nil => cases hb
  | cons c L ih =>
    rcases List.mem_cons.mp hb with h | h
    · subst h
      have : b ∉ L := (List.nodup_cons.mp hnd).1
      simp [sum_ite_of_not_mem L b x this]
    · have hbc : b ≠ c := fun hbc => (List.nodup_cons.mp hnd).1 (hbc ▸ h)
      simp only [List.map_cons, List.sum_cons, if_neg hbc,
        ih (List.nodup_cons.mp hnd).2 h, zero_add]

/-- Partition of a sum over a list into fiber sums over any duplicate-free
key list covering every element's key; keys with empty fiber contribute 0. -/
theorem sum_fibers [DecidableEq β] (l : List α) (k : α → β) (f : α → ℚ)
    (L : List β) (hnd : L.Nodup) (hcov : ∀ a ∈ l, k a ∈ L) :
    (L.map (fun v => ((l.filter (fun a => k a = v)).map f).sum)).sum
      = (l.map f).sum := by
  induction l with
  | nil => simp
  | cons a l ih =>
    have hcov' : ∀ x ∈ l, k x ∈ L := fun x hx => hcov x (List.mem_cons_of_mem a hx)
    have step : ∀ v : β,
        ((List.filter (fun x => decide (k x = v)) (a :: l)).map f).sum
          = (if k a = v then f a else 0)
            + ((l.filter (fun x => k x = v)).map f).sum := by
      intro v
      by_cases h : k a = v
      · simp [List.filter_cons, h]
      · simp [List.filter_cons, h]
    calc (L.map (fun v => ((List.filter (fun x => decide (k x = v)) (a :: l)).map f).sum)).sum
        = (L.map (fun v => (if k a = v then f a else 0)
            + ((l.filter (fun x => k x = v)).map f).sum)).sum := by
          exact congrArg List.sum (List.map_congr_left (fun v _ => step v))
      _ = (L.map (fun v => if k a = v then f a else 0)).sum
            + (L.map (fun v => ((l.filter (fun x => k x = v)).map f).sum)).sum := by
          exact sum_map_add L _ _
      _ = f a + (l.map f).sum := by
          rw [sum_ite_single L hnd (k a) (hcov a (List.mem_cons_self a l)) (f a),
            ih hcov']
      _ = ((a :: l).map f).sum := by simp

end ListLemmas

/-! ## Claim C1: the minimum-order-total filter works at order granularity -/

theorem mem_qualifying_orders (threshold : ℚ) (rows : List Row) (oid : Nat) :
    oid ∈ qualifying_orders threshold rows ↔
      oid ∈ orderIds rows ∧ threshold ≤ orderTotal rows oid := by
  simp only [qualifying_orders, order_totals, List.mem_map, List.mem_filter]
  constructor
  · rintro ⟨p, ⟨⟨a, ha, rfl⟩, hle⟩, rfl⟩
    exact ⟨ha, by simpa using hle⟩
  · rintro ⟨ha, hle⟩
    exact ⟨(oid, orderTotal rows oid), ⟨⟨oid, ha, rfl⟩, by simpa using hle⟩, rfl⟩

/-- C1: for every record set and positive threshold, the minimum-order-total
filter keeps exactly the lines whose order's total (summed over all lines of
that `order_id` in the input set) reaches the threshold — membership of a
line depends only on its order's total, i.e. filtering is at order
granularity, never at line granularity. -/
theorem min_order_filter_order_granularity (threshold : ℚ) (rows : List Row)
    (hpos : 0 < threshold) :
    (applyMinOrderTotal threshold rows
      = rows.filter (fun r => threshold ≤ orderTotal rows r.order_id)) ∧
    ∀ r : Row, r ∈ applyMinOrderTotal threshold rows ↔
      r ∈ rows ∧ threshold ≤ orderTotal rows r.order_id := by
  have heq : applyMinOrderTotal threshold rows
      = rows.filter (fun r => threshold ≤ orderTotal rows r.order_id) := by
    by_cases hrows : rows = []
    · subst hrows
      simp [applyMinOrderTotal]
    · rw [applyMinOrderTotal, if_pos ⟨hpos, by simp [hrows]⟩]
      apply List.filter_congr
      intro r hr
      rw [decide_eq_decide, mem_qualifying_orders]
      exact and_iff_right (List.mem_dedup.mpr (List.mem_map_of_mem _ hr))
  refine ⟨heq, ?_⟩
  intro r
  rw [heq, List.mem_filter, decide_eq_true_eq]

/-- Witness for C1 at a concrete input. -/
theorem min_order_filter_order_granularity_witness :
    applyMinOrderTotal 1 [exRow1]
      = [exRow1].filter (fun r => (1 : ℚ) ≤ orderTotal [exRow1] r.order_id) :=
  (min_order_filter_order_granularity 1 [exRow1] (by norm_num)).1

/-! ## Claim C2: compute_aov is the mean of per-order totals -/

theorem orderIds_ne_nil {rows : List Row} (h : rows ≠ []) : orderIds rows ≠ [] := by
  obtain ⟨r, hr⟩ := List.exists_mem_of_ne_nil rows h
  exact dedup_ne_nil_of_mem (List.mem_map_of_mem _ hr)

theorem compute_aov_nonempty (rows : List Row) (h : rows ≠ []) :
    compute_aov rows
      = ((orderIds rows).map (orderTotal rows)).sum / ((orderIds rows).length : ℚ) := by
  rw [compute_aov, if_neg (by simp [h]), if_neg (by simp [orderIds_ne_nil h])]

/-- C2: `compute_aov` returns 0 on the empty set, the arithmetic mean of the
per-order totals on a non-empty set, and its value is unchanged by any
re-splitting of lines that preserves the set of order ids and each order's
total. -/
theorem compute_aov_correct :
    compute_aov [] = 0 ∧
    (∀ rows : List Row, rows ≠ [] →
      compute_aov rows
        = ((orderIds rows).map (orderTotal rows)).sum / ((orderIds rows).length : ℚ)) ∧
    (∀ rows rows' : List Row, rows ≠ [] → rows' ≠ [] →
      (orderIds rows).toFinset = (orderIds rows').toFinset →
      (∀ oid : Nat, orderTotal rows oid = orderTotal rows' oid) →
      compute_aov rows = compute_aov rows') := by
  refine ⟨rfl, compute_aov_nonempty, ?_⟩
  intro rows rows' h h' hfin htot
  have hperm : (orderIds rows).Perm (orderIds rows') :=
    List.perm_of_nodup_nodup_toFinset_eq (List.nodup_dedup _) (List.nodup_dedup _) hfin
  rw [compute_aov_nonempty rows h, compute_aov_nonempty rows' h']
  rw [List.map_congr_left (fun oid _ => htot oid), (hperm.map (orderTotal rows')).sum_eq,
    hperm.length_eq]

/-- Witness for C2: one order of 100 split as 60 + 40 has the same AOV. -/
theorem compute_aov_correct_witness :
    compute_aov [exRow1] = compute_aov [exRow1a, exRow1b] := by
  refine compute_aov_correct.2.2 [exRow1] [exRow1a, exRow1b] (by simp) (by simp)
    (by decide) ?_
  intro oid
  by_cases h : (1 : Nat) = oid
  · subst h
    simp [orderTotal, orderLines, exRow1, exRow1a, exRow1b]
    norm_num
  · simp [orderTotal, orderLines, exRow1, exRow1a, exRow1b, h]

/-! ## Claim C3: repeat purchase rate -/

theorem mem_customerIds_of_mem {rows : List Row} {r : Row} (hr : r ∈ rows) :
    r.customer_id ∈ customerIds rows :=
  List.mem_dedup.mpr (List.mem_map_of_mem _ hr)

theorem customerIds_ne_nil {rows : List Row} (h : rows ≠ []) : customerIds rows ≠ [] := by
  obtain ⟨r, hr⟩ := List.exists_mem_of_ne_nil rows h
  exact List.ne_nil_of_mem (mem_customerIds_of_mem hr)

theorem custNumOrders_pos {rows : List Row} {c : Nat} (hc : c ∈ customerIds rows) :
    1 ≤ custNumOrders rows c := by
  rw [customerIds, List.mem_dedup, List.mem_map] at hc
  obtain ⟨r, hr, hcr⟩ := hc
  have hmem : r ∈ custRows rows c := by
    rw [custRows, List.mem_filter]
    exact ⟨hr, by simp [hcr]⟩
  have hne : ((custRows rows c).map (·.order_id)).dedup ≠ [] :=
    dedup_ne_nil_of_mem (List.mem_map_of_mem _ hmem)
  have hpos := List.length_pos.mpr hne
  unfold custNumOrders
  omega

theorem repeat_rate_nonempty (rows : List Row) (h : rows ≠ []) :
    compute_repeat_purchase_rate rows
      = (((customerIds rows).filter (fun c => 1 < custNumOrders rows c)).length : ℚ)
          / ((customerIds rows).length : ℚ) := by
  have htot : 0 < (customerIds rows).length := List.length_pos.mpr (customerIds_ne_nil h)
  rw [compute_repeat_purchase_rate, if_neg (by simp [h])]
  simp only [if_pos htot]

/-- C3: `compute_repeat_purchase_rate` is the fraction of distinct customers
with at least 2 distinct orders, 0 on the empty set (no division by zero),
always within [0, 1], and 0 exactly when every customer present has exactly
one distinct order. -/
theorem compute_repeat_purchase_rate_correct :
    compute_repeat_purchase_rate [] = 0 ∧
    (∀ rows : List Row, rows ≠ [] →
      compute_repeat_purchase_rate rows
        = (((customerIds rows).filter (fun c => 2 ≤ custNumOrders rows c)).length : ℚ)
            / ((customerIds rows).length : ℚ)) ∧
    (∀ rows : List Row,
      0 ≤ compute_repeat_purchase_rate rows ∧ compute_repeat_purchase_rate rows ≤ 1) ∧
    (∀ rows : List Row,
      compute_repeat_purchase_rate rows = 0 ↔
        ∀ c ∈ customerIds rows, custNumOrders rows c = 1) := by
  have hfilter : ∀ rows : List Row,
      (customerIds rows).filter (fun c => 1 < custNumOrders rows c)
        = (customerIds rows).filter (fun c => 2 ≤ custNumOrders rows c) := by
    intro rows
    apply List.filter_congr
    intro c _
    simp only [decide_eq_decide]
    omega
  refine ⟨rfl, ?_, ?_, ?_⟩
  · intro rows h
    rw [repeat_rate_nonempty rows h, hfilter]
  · intro rows
    by_cases h : rows = []
    · subst h
      norm_num [compute_repeat_purchase_rate]
    · rw [repeat_rate_nonempty rows h]
      have htot : 0 < (customerIds rows).length := List.length_pos.mpr (customerIds_ne_nil h)
      have hle := List.length_filter_le (fun c => decide (1 < custNumOrders rows c)) (customerIds rows)
      constructor
      · positivity
      · rw [div_le_one (by exact_mod_cast htot)]
        exact_mod_cast hle
  · intro rows
    by_cases h : rows = []
    · subst h
      simp [compute_repeat_purchase_rate, customerIds]
    · rw [repeat_rate_nonempty rows h]
      have htot : ((customerIds rows).length : ℚ) ≠ 0 := by
        have := List.length_pos.mpr (customerIds_ne_nil h)
        exact_mod_cast Nat.pos_iff_ne_zero.mp this
      rw [div_eq_zero_iff]
      constructor
      · rintro (hz | hz)
        · rw [Nat.cast_eq_zero, List.length_eq_zero, List.filter_eq_nil_iff] at hz
          intro c hc
          have h1 := custNumOrders_pos hc
          have h2 := hz c hc
          rw [decide_eq_true_eq] at h2
          omega
        · exact absurd hz htot
      · intro hall
        left
        rw [Nat.cast_eq_zero, List.length_eq_zero, List.filter_eq_nil_iff]
        intro c hc
        rw [decide_eq_true_eq]
        have := hall c hc
        omega

/-- Witness for C3 at a concrete one-customer input. -/
theorem compute_repeat_purchase_rate_correct_witness :
    compute_repeat_purchase_rate [exRow1]
      = (((customerIds [exRow1]).filter (fun c => 2 ≤ custNumOrders [exRow1] c)).length : ℚ)
          / ((customerIds [exRow1]).length : ℚ) :=
  compute_repeat_purchase_rate_correct.2.1 [exRow1] (by simp)

/-! ## Claims C4 and C10: the daily series -/

/-- C4: for a non-empty record set, the revenue column of the daily series
sums to the total `total_price` of the records. -/
theorem daily_revenue_sum_eq_total (rows : List Row) (h : rows ≠ []) :
    ((create_daily_orders_df rows).map (·.revenue)).sum
      = (rows.map (·.total_price)).sum := by
  have hie : rows.isEmpty = false := by simp [h]
  have hcov : ∀ r ∈ rows,
      r.order_date ∈ List.range' ((rows.map (·.order_date)).min?.getD 0)
        ((rows.map (·.order_date)).max?.getD 0 + 1
          - (rows.map (·.order_date)).min?.getD 0) := by
    intro r hr
    have h1 := min?_getD_le (rows.map (·.order_date)) 0 r.order_date
      (List.mem_map_of_mem _ hr)
    have h2 := max?_getD_le (rows.map (·.order_date)) 0 r.order_date
      (List.mem_map_of_mem _ hr)
    rw [List.mem_range'_1]
    omega
  simp only [create_daily_orders_df, hie, Bool.false_eq_true, if_false, List.map_map]
  exact sum_fibers rows (fun r => r.order_date) (fun r => r.total_price) _
    (List.nodup_range' _ _) hcov

/-- Witness for C4 at a concrete input. -/
theorem daily_revenue_sum_eq_total_witness :
    ((create_daily_orders_df [exRow1]).map (·.revenue)).sum
      = ([exRow1].map (·.total_price)).sum :=
  daily_revenue_sum_eq_total [exRow1] (by simp)

/-- C10: for a non-empty record set the daily series has one row per
calendar day from the earliest to the latest order date inclusive (its date
column IS that contiguous range), is strictly increasing in date, covers
every day of the range, and a day with no records carries order count 0 and
revenue 0. -/
theorem daily_series_gap_free (rows : List Row) (h : rows ≠ []) :
    ((create_daily_orders_df rows).map (·.order_date)
        = List.range' ((rows.map (·.order_date)).min?.getD 0)
            ((rows.map (·.order_date)).max?.getD 0 + 1
              - (rows.map (·.order_date)).min?.getD 0)) ∧
    List.Pairwise (· < ·) ((create_daily_orders_df rows).map (·.order_date)) ∧
    (∀ d : Nat, (rows.map (·.order_date)).min?.getD 0 ≤ d →
      d ≤ (rows.map (·.order_date)).max?.getD 0 →
      d ∈ (create_daily_orders_df rows).map (·.order_date)) ∧
    (∀ e ∈ create_daily_orders_df rows,
      (∀ r ∈ rows, r.order_date ≠ e.order_date) →
        e.order_count = 0 ∧ e.revenue = 0) := by
  have hie : rows.isEmpty = false := by simp [h]
  have hdates : (create_daily_orders_df rows).map (·.order_date)
      = List.range' ((rows.map (·.order_date)).min?.getD 0)
          ((rows.map (·.order_date)).max?.getD 0 + 1
            - (rows.map (·.order_date)).min?.getD 0) := by
    simp only [create_daily_orders_df, hie, Bool.false_eq_true, if_false, List.map_map]
    exact List.map_id' _
  refine ⟨hdates, ?_, ?_, ?_⟩
  · rw [hdates]
    exact List.pairwise_lt_range' _ _
  · intro d h1 h2
    rw [hdates, List.mem_range'_1]
    omega
  · intro e he hnone
    simp only [create_daily_orders_df, hie, Bool.false_eq_true, if_false,
      List.mem_map] at he
    obtain ⟨d, _, rfl⟩ := he
    have hfil : rows.filter (fun r => r.order_date = d) = [] := by
      rw [List.filter_eq_nil_iff]
      intro r hr
      simp only [decide_eq_true_eq]
      exact hnone r hr
    constructor
    · simp [hfil]
    · simp [hfil]

/-- Witness for C10 at a concrete input (the gap-free date column). -/
theorem daily_series_gap_free_witness :
    (create_daily_orders_df [exRow1]).map (·.order_date)
      = List.range' (([exRow1].map (·.order_date)).min?.getD 0)
          (([exRow1].map (·.order_date)).max?.getD 0 + 1
            - ([exRow1].map (·.order_date)).min?.getD 0) :=
  (daily_series_gap_free [exRow1] (by simp)).1

/-! ## Claim C5: cohort retention invariants -/

theorem mem_custRows_self {rows : List Row} {r : Row} (hr : r ∈ rows) :
    r ∈ custRows rows r.customer_id := by
  rw [custRows, List.mem_filter]
  exact ⟨hr, by simp⟩

theorem custMinDate_le {rows : List Row} {r : Row} (hr : r ∈ rows) :
    custMinDate rows r.customer_id ≤ r.order_date :=
  min?_getD_le _ 0 r.order_date (List.mem_map_of_mem _ (mem_custRows_self hr))

theorem exists_min_row {rows : List Row} {r : Row} (hr : r ∈ rows) :
    ∃ r0 ∈ rows, r0.customer_id = r.customer_id
      ∧ r0.order_date = custMinDate rows r.customer_id := by
  have hne : (custRows rows r.customer_id).map (·.order_date) ≠ [] :=
    List.ne_nil_of_mem (List.mem_map_of_mem _ (mem_custRows_self hr))
  have hmem : custMinDate rows r.customer_id
      ∈ (custRows rows r.customer_id).map (·.order_date) :=
    min?_getD_mem _ 0 hne
  rw [List.mem_map] at hmem
  obtain ⟨r0, hr0, hdate⟩ := hmem
  rw [custRows, List.mem_filter] at hr0
  obtain ⟨hr0mem, hc⟩ := hr0
  rw [decide_eq_true_eq] at hc
  exact ⟨r0, hr0mem, hc, hdate⟩

theorem periodNumber_nonneg {rows : List Row} (M : Nat → Nat) (hM : Monotone M)
    {r : Row} (hr : r ∈ rows) : 0 ≤ periodNumber rows M r := by
  unfold periodNumber orderMonth cohortMonth
  have := hM (custMinDate_le hr)
  omega

theorem exists_period_zero {rows : List Row} {r : Row} (hr : r ∈ rows)
    (M : Nat → Nat) :
    ∃ r0 ∈ rows, r0.customer_id = r.customer_id ∧ periodNumber rows M r0 = 0 := by
  obtain ⟨r0, h0, hc, hd⟩ := exists_min_row hr
  refine ⟨r0, h0, hc, ?_⟩
  unfold periodNumber orderMonth cohortMonth
  rw [hc, hd]
  simp

theorem minPeriod_eq_zero (M : Nat → Nat) (hM : Monotone M) (rows : List Row)
    (h : rows ≠ []) : minPeriod rows M = 0 := by
  obtain ⟨r, hr⟩ := List.exists_mem_of_ne_nil rows h
  obtain ⟨r0, h0, _, hp⟩ := exists_period_zero hr M
  have hub : minPeriod rows M ≤ 0 := by
    have := min?_getD_le (rows.map (periodNumber rows M)) 0 (periodNumber rows M r0)
      (List.mem_map_of_mem _ h0)
    rw [hp] at this
    exact this
  have hlb : 0 ≤ minPeriod rows M := by
    have hmem := min?_getD_mem (rows.map (periodNumber rows M)) 0
      (List.ne_nil_of_mem (List.mem_map_of_mem (periodNumber rows M) hr))
    rw [List.mem_map] at hmem
    obtain ⟨r1, hr1, he⟩ := hmem
    rw [minPeriod, ← he]
    exact periodNumber_nonneg M hM hr1
  omega

/-- C5: for a monotone calendar month index and a non-empty record set, every
record's period number is a non-negative integer, the pivot's first column is
period 0, and every present cohort's retention at period 0 is exactly 1. -/
theorem cohort_retention_invariants (M : Nat → Nat) (hM : Monotone M)
    (rows : List Row) (h : rows ≠ []) :
    (∀ r ∈ rows, 0 ≤ periodNumber rows M r) ∧
    minPeriod rows M = 0 ∧
    (∀ m : Nat, (∃ r ∈ rows, cohortMonth rows M r.customer_id = m) →
      retention rows M m 0 = 1) := by
  refine ⟨fun r hr => periodNumber_nonneg M hM hr, minPeriod_eq_zero M hM rows h, ?_⟩
  rintro m ⟨r, hr, hm⟩
  obtain ⟨r0, h0, hc, hp⟩ := exists_period_zero hr M
  have h0mem : r0 ∈ rows.filter (fun x =>
      cohortMonth rows M x.customer_id = m ∧ periodNumber rows M x = 0) := by
    rw [List.mem_filter]
    refine ⟨h0, ?_⟩
    rw [decide_eq_true_eq]
    exact ⟨by rw [hc]; exact hm, hp⟩
  have hcount : cohortCount rows M m 0 ≠ 0 := by
    have hmem : r0.customer_id ∈ ((rows.filter (fun x =>
        cohortMonth rows M x.customer_id = m ∧ periodNumber rows M x = 0)).map
          (·.customer_id)).dedup :=
      List.mem_dedup.mpr (List.mem_map_of_mem _ h0mem)
    have hne := List.ne_nil_of_mem hmem
    unfold cohortCount
    intro hz
    exact hne (List.length_eq_zero.mp hz)
  rw [retention, if_neg hcount, minPeriod_eq_zero M hM rows h]
  exact div_self (by exact_mod_cast hcount)

/-- Witness for C5 with the identity month index on a one-row set. -/
theorem cohort_retention_invariants_witness :
    (∀ r ∈ [exRow1], 0 ≤ periodNumber [exRow1] id r) ∧
    minPeriod [exRow1] id = 0 ∧
    (∀ m : Nat, (∃ r ∈ [exRow1], cohortMonth [exRow1] id r.customer_id = m) →
      retention [exRow1] id m 0 = 1) :=
  cohort_retention_invariants id monotone_id [exRow1] (by simp)

/-! ## Claim C7: delivery time distribution -/

/-- Counterexample to C7 as stated: a line delivered 3 days before its order
date contributes the negative value -3 to the source's distribution, while
the spec's wording would exclude it. -/
theorem deliveryTimes_negative_kept :
    deliveryTimes [exRowNegDelivery] = [-3] ∧
    deliveryTimesSpecNonneg [exRowNegDelivery] = [] := by
  constructor
  · simp only [deliveryTimes, exRowNegDelivery, exRow1, List.filterMap_cons,
      List.filterMap_nil, Option.map_some']
    norm_num
  · norm_num [deliveryTimesSpecNonneg, deliveryTimes, exRowNegDelivery, exRow1]

/-- C7 (amended): the distribution contains exactly the day differences
`delivery_date - order_date` of the records with a non-null `delivery_date`
(one entry per such record), with null differences excluded but negative
differences retained. -/
theorem deliveryTimes_characterization (rows : List Row) :
    (deliveryTimes rows).length
      = (rows.filter (fun r => r.delivery_date.isSome)).length ∧
    (∀ v : Int, v ∈ deliveryTimes rows ↔
      ∃ r ∈ rows, ∃ d : Nat, r.delivery_date = some d
        ∧ v = (d : Int) - (r.order_date : Int)) := by
  constructor
  · induction rows with
    | nil => rfl
    | cons r rows ih =>
      simp only [deliveryTimes] at ih ⊢
      cases hdel : r.delivery_date with
      | none => simpa [List.filterMap_cons, hdel, List.filter_cons] using ih
      | some d => simpa [List.filterMap_cons, hdel, List.filter_cons] using ih
  · intro v
    constructor
    · intro hv
      rw [deliveryTimes, List.mem_filterMap] at hv
      obtain ⟨r, hr, hf⟩ := hv
      rw [Option.map_eq_some'] at hf
      obtain ⟨d, hd, hval⟩ := hf
      exact ⟨r, hr, d, hd, hval.symm⟩
    · rintro ⟨r, hr, d, hd, hval⟩
      rw [deliveryTimes, List.mem_filterMap]
      refine ⟨r, hr, ?_⟩
      rw [hd, Option.map_some', hval]

/-! ## Claim C8: transforms and the input table -/

/-- Counterexample to C8 as stated: on a table without the `quantity_x`
column, `create_sum_order_items_df` writes that column onto its input, so the
input table after the call differs from the input before it. -/
theorem create_sum_order_items_df_mutates_input :
    (create_sum_order_items_df ⟨false, [exRow1]⟩).1 ≠ (⟨false, [exRow1]⟩ : DF) := by
  simp [create_sum_order_items_df]

/-- C8 (amended): every core transform except `create_sum_order_items_df`
leaves its input table unchanged, and `create_sum_order_items_df` leaves it
unchanged exactly when the `quantity_x` column is already present; when the
column is absent it adds it to the input, zero-filled. -/
theorem transforms_read_only :
    (∀ df : DF, df.hasQuantityX = true → (create_sum_order_items_df df).1 = df) ∧
    (∀ df : DF, df.hasQuantityX = false →
      (create_sum_order_items_df df).1
        = { hasQuantityX := true,
            rows := df.rows.map (fun r => { r with quantity := 0 }) }) ∧
    (∀ df : DF, (run_create_daily_orders_df df).1 = df) ∧
    (∀ df : DF, (run_create_bygender_df df).1 = df) ∧
    (∀ df : DF, (run_create_byage_df df).1 = df) ∧
    (∀ df : DF, (run_create_bystate_df df).1 = df) ∧
    (∀ df : DF, (run_create_rfm_df df).1 = df) := by
  refine ⟨?_, ?_, fun df => rfl, fun df => rfl, fun df => rfl, fun df => rfl,
    fun df => rfl⟩
  · intro df h
    simp [create_sum_order_items_df, h]
  · intro df h
    simp [create_sum_order_items_df, h]

/-- Witness for C8 (amended) at a concrete input. -/
theorem transforms_read_only_witness :
    (create_sum_order_items_df ⟨true, [exRow1]⟩).1 = (⟨true, [exRow1]⟩ : DF) ∧
    (run_create_daily_orders_df ⟨true, [exRow1]⟩).1 = (⟨true, [exRow1]⟩ : DF) :=
  ⟨transforms_read_only.1 ⟨true, [exRow1]⟩ rfl,
    transforms_read_only.2.2.1 ⟨true, [exRow1]⟩⟩

/-! ## Claim C9: segment revenue rollup -/

/-- C9: when every customer of the filtered set carries exactly one segment
code, the per-segment revenue rollup sums to the total revenue of the set. -/
theorem segment_revenue_rollup_total (rows : List Row)
    (scores : List (Nat × String))
    (hnd : (scores.map Prod.fst).Nodup)
    (hmem : ∀ c : Nat, c ∈ scores.map Prod.fst ↔ c ∈ customerIds rows) :
    ((segCodes scores).map (seg_rev rows scores)).sum
      = (rows.map (·.total_price)).sum := by
  have h1 : ((segCodes scores).map (seg_rev rows scores)).sum
      = (scores.map (fun s => custRevenue rows s.1)).sum :=
    sum_fibers scores Prod.snd (fun s => custRevenue rows s.1) _
      (List.nodup_dedup _)
      (fun s hs => List.mem_dedup.mpr (List.mem_map_of_mem _ hs))
  have h2 : (scores.map (fun s => custRevenue rows s.1)).sum
      = ((scores.map Prod.fst).map (custRevenue rows)).sum := by
    rw [List.map_map]
    rfl
  have hperm : (scores.map Prod.fst).Perm (customerIds rows) :=
    List.perm_of_nodup_nodup_toFinset_eq hnd (List.nodup_dedup _)
      (Finset.ext (fun c => by
        rw [List.mem_toFinset, List.mem_toFinset]
        exact hmem c))
  have h3 : ((scores.map Prod.fst).map (custRevenue rows)).sum
      = ((customerIds rows).map (custRevenue rows)).sum :=
    (hperm.map (custRevenue rows)).sum_eq
  have h4 : ((customerIds rows).map (custRevenue rows)).sum
      = (rows.map (·.total_price)).sum :=
    sum_fibers rows (fun r => r.customer_id) (fun r => r.total_price) _
      (List.nodup_dedup _)
      (fun r hr => List.mem_dedup.mpr (List.mem_map_of_mem _ hr))
  rw [h1, h2, h3, h4]

/-- Witness for C9: one customer, one segment code. -/
theorem segment_revenue_rollup_total_witness :
    ((segCodes [(1, "555")]).map (seg_rev [exRow1] [(1, "555")])).sum
      = ([exRow1].map (·.total_price)).sum :=
  segment_revenue_rollup_total [exRow1] [(1, "555")] (by simp)
    (by intro c; simp [customerIds, exRow1])

/-! ## Claim C6: quintile scoring under insufficient variation -/

theorem insertSortedQ_mem (x y : ℚ) (l : List ℚ) :
    y ∈ insertSortedQ x l ↔ y = x ∨ y ∈ l := by
  induction l with
  | nil => simp [insertSortedQ]
  | cons a l ih =>
    by_cases h : x ≤ a
    · simp [insertSortedQ, h]
    · simp only [insertSortedQ, if_neg h, List.mem_cons, ih]
      tauto

theorem sortQ_mem (xs : List ℚ) (y : ℚ) : y ∈ sortQ xs ↔ y ∈ xs := by
  induction xs with
  | nil => simp [sortQ]
  | cons a xs ih =>
    simp only [sortQ, List.foldr_cons] at ih ⊢
    rw [insertSortedQ_mem, ih, List.mem_cons]

theorem insertSortedQ_length (x : ℚ) (l : List ℚ) :
    (insertSortedQ x l).length = l.length + 1 := by
  induction l with
  | nil => rfl
  | cons a l ih =>
    by_cases h : x ≤ a
    · simp [insertSortedQ, h]
    · simp [insertSortedQ, h, ih]

theorem sortQ_length (xs : List ℚ) : (sortQ xs).length = xs.length := by
  induction xs with
  | nil => rfl
  | cons a xs ih =>
    simp only [sortQ, List.foldr_cons] at ih ⊢
    rw [insertSortedQ_length, ih, List.length_cons]

theorem dedup_replicate {α : Type _} [DecidableEq α] (n : Nat) (hn : n ≠ 0)
    (c : α) : (List.replicate n c).dedup = [c] := by
  induction n with
  | zero => exact absurd rfl hn
  | succ n ih =>
    by_cases h : n = 0
    · subst h
      simp
    · rw [List.replicate_succ, List.dedup_cons_of_mem
        (List.mem_replicate.mpr ⟨h, rfl⟩)]
      exact ih h

theorem ratFloor_eq_intFloor (q : ℚ) : q.floor = ⌊q⌋ := rfl

theorem getD_of_const {s : List ℚ} {c : ℚ} (hs : ∀ x ∈ s, x = c) {i : Nat}
    (hi : i < s.length) (d : ℚ) : s.getD i d = c := by
  rw [List.getD_eq_getElem s d hi]
  exact hs _ (List.getElem_mem hi)

theorem quantileAt_const {s : List ℚ} {c : ℚ} (hs : ∀ x ∈ s, x = c)
    (hne : s ≠ []) {q : ℚ} (h0 : 0 ≤ q) (h1 : q ≤ 1) : quantileAt s q = c := by
  have hn1 : 1 ≤ s.length := List.length_pos.mpr hne
  have hcast : (1 : ℚ) ≤ (s.length : ℚ) := by exact_mod_cast hn1
  have hpos0 : 0 ≤ q * ((s.length : ℚ) - 1) := mul_nonneg h0 (by linarith)
  have hposle : q * ((s.length : ℚ) - 1) ≤ (s.length : ℚ) - 1 := by
    calc q * ((s.length : ℚ) - 1) ≤ 1 * ((s.length : ℚ) - 1) :=
          mul_le_mul_of_nonneg_right h1 (by linarith)
      _ = (s.length : ℚ) - 1 := one_mul _
  have hflt : (q * ((s.length : ℚ) - 1)).floor.toNat < s.length := by
    have h3 : (q * ((s.length : ℚ) - 1)).floor ≤ (s.length : Int) - 1 := by
      have h4 : ((s.length : ℚ) - 1 : ℚ) = (((s.length : Int) - 1 : Int) : ℚ) := by
        push_cast
        ring
      rw [ratFloor_eq_intFloor]
      calc ⌊q * ((s.length : ℚ) - 1)⌋
          ≤ ⌊((s.length : ℚ) - 1 : ℚ)⌋ := Int.floor_le_floor hposle
        _ = (s.length : Int) - 1 := by rw [h4]; exact Int.floor_intCast _
    omega
  have ha := getD_of_const hs hflt 0
  have hb : s.getD ((q * ((s.length : ℚ) - 1)).floor.toNat + 1)
      (s.getD (q * ((s.length : ℚ) - 1)).floor.toNat 0) = c := by
    by_cases hlt : (q * ((s.length : ℚ) - 1)).floor.toNat + 1 < s.length
    · exact getD_of_const hs hlt _
    · rw [List.getD_eq_default _ _ (by omega)]
      exact ha
  simp only [quantileAt]
  rw [hb, ha]
  ring

theorem qcut5Drop_const (c : ℚ) (n : Nat) (hn : n ≠ 0) :
    qcut5Drop (List.replicate n c) = List.replicate n none := by
  have hsmem : ∀ x ∈ sortQ (List.replicate n c), x = c := fun x hx =>
    List.eq_of_mem_replicate ((sortQ_mem _ x).mp hx)
  have hsne : sortQ (List.replicate n c) ≠ [] := by
    intro hnil
    have hlen := sortQ_length (List.replicate n c)
    rw [hnil, List.length_replicate] at hlen
    exact hn (by simpa using hlen.symm)
  have hedges : ∀ q ∈ ([0, 1/5, 2/5, 3/5, 4/5, 1] : List ℚ),
      quantileAt (sortQ (List.replicate n c)) q = c := by
    intro q hq
    fin_cases hq <;> exact quantileAt_const hsmem hsne (by norm_num) (by norm_num)
  have hedges' : quintileEdges (List.replicate n c) = List.replicate 6 c := by
    unfold quintileEdges
    calc ([0, 1/5, 2/5, 3/5, 4/5, 1] : List ℚ).map
          (fun q => quantileAt (sortQ (List.replicate n c)) q)
        = ([0, 1/5, 2/5, 3/5, 4/5, 1] : List ℚ).map (fun _ => c) :=
          List.map_congr_left hedges
      _ = List.replicate 6 c := rfl
  have hbins : (quintileEdges (List.replicate n c)).dedup = [c] := by
    rw [hedges']
    exact dedup_replicate 6 (by norm_num) c
  simp only [qcut5Drop, hbins]
  rw [List.map_replicate]
  have hlt : ¬ (c < c) := lt_irrefl c
  simp [hlt]

/-- C6 (code_bug record): on an RFM base table whose recency column has a
single repeated value, the modelled `pd.qcut(..., duplicates='drop')` returns
a missing (NaN) code for every customer instead of raising, so the source's
except-branch never assigns the constant 3; every recency score is missing,
and the later `astype(int)` on these scores is what fails. -/
theorem r_quintile_constant_recency_missing :
    r_quintile exConstRFM = List.replicate 5 none ∧
    ∀ s ∈ r_quintile exConstRFM, s ≠ some 3 := by
  have hmap : exConstRFM.map (fun x => (x.recency : ℚ)) = List.replicate 5 (7 : ℚ) := by
    simp [exConstRFM, List.replicate]
  have hq : r_quintile exConstRFM = List.replicate 5 none := by
    unfold r_quintile
    rw [hmap, qcut5Drop_const 7 5 (by norm_num), List.map_replicate]
    rfl
  refine ⟨hq, ?_⟩
  intro s hs
  rw [hq] at hs
  rw [List.eq_of_mem_replicate hs]
  simp
